import Mathlib

/-!
Shallow embedding of the update-decision engine of the price-feed keeper bot
in price_feeds_poller.py.  Chain interactions (balance reads, contract calls,
receipt waits, the dry-run subprocess) are modelled as explicit parameters of
the step functions; Python arbitrary-precision integers become Int/Nat,
Python floats become exact rationals, and addresses and transaction hashes
are modelled as natural numbers (0 stands both for the zero address and for
the empty hash string).
-/

namespace PriceFeedsPoller

/-- Per-feed mutable record kept by the poll loop (the Python dict appended to
`pfs` at startup).  The field `latestQueryId` models the dict key of that
name, which is only ever written by the re-route code path, while every other
part of the program reads and writes the separate key `latestRequestId`. -/
structure Feed where
  contractAddr : Nat
  cooldown : Int
  deviation : ℚ
  heartbeat : Int
  isRouted : Bool
  lastPrice : Int
  lastTimestamp : Int
  latestRequestId : Int
  latestQueryId : Option Int := none
  pendingUpdate : Bool
  witnet : Option Nat
  reverts : Nat
  auto_disabled : Bool
  lastRevertedTx : Nat
  fees : List Int
  secs : List Int
deriving Repr, DecidableEq

/-- Outcome of the raw transaction as seen by handle_requestUpdate: the
receipt wait may time out, any other step may raise, or a receipt arrives
carrying a success flag and the list of PriceFeeding event query ids. -/
inductive ChainTx
  | timeout
  | exn
  | receipt (status : Bool) (logs : List Int)
deriving Repr, DecidableEq

/-- Value returned by handle_requestUpdate, mirroring the Python lists:
`zeroResult` models `[0]` (timeout, or any exception - including the
zero-balance one - caught by the function's own handler), `revertedTx`
models `[-1, txHash]`, and `full` models `[requestId, txHash, totalFee]`. -/
inductive UpdateResult
  | zeroResult
  | revertedTx (tx : Nat)
  | full (requestId : Int) (tx : Nat) (fee : Int)
deriving Repr, DecidableEq

/-- Embedding of handle_requestUpdate.  The zero-balance check raises an
exception that the surrounding generic handler of the very same function
catches, returning `[0]`; a receipt timeout or a transaction rejection also
returns `[0]`; a failed receipt returns `[-1, txHash]`; a successful receipt
returns the first PriceFeeding event's query id - or, when no event was
emitted, the caller's previous `latestRequestId` - with tx hash and fee. -/
def handle_requestUpdate (balance : Nat) (latestRequestId : Int) (txr : ChainTx)
    (tx : Nat) (total_fee : Int) : UpdateResult :=
  if balance = 0 then UpdateResult.zeroResult
  else
    match txr with
    | ChainTx.timeout => UpdateResult.zeroResult
    | ChainTx.exn => UpdateResult.zeroResult
    | ChainTx.receipt status logs =>
        if status = false then UpdateResult.revertedTx tx
        else
          match logs with
          | [] => UpdateResult.full latestRequestId tx total_fee
          | q :: _ => UpdateResult.full q tx total_fee

/-- First element of the returned list (`result[0]` in the loop). -/
def resultId : UpdateResult → Int
  | UpdateResult.zeroResult => 0
  | UpdateResult.revertedTx _ => -1
  | UpdateResult.full q _ _ => q

/-- Second element of the returned list (`result[1]`), defaulting to the
empty hash for the one-element result where it is never read. -/
def resultTx : UpdateResult → Nat
  | UpdateResult.zeroResult => 0
  | UpdateResult.revertedTx t => t
  | UpdateResult.full _ t _ => t

/-- Append an element and, when the bound is exceeded, delete the element at
index 0 (the oldest), exactly as `list.append` followed by `del l[0]`. -/
def pushBounded (bound : Nat) (xs : List Int) (x : Int) : List Int :=
  let ys := xs ++ [x]
  if bound < ys.length then ys.tail else ys

/-- Telemetry recording on a fully successful request (lines appending to
`pf["fees"]` when the fee is positive, bound 16, and to `pf["secs"]`
unconditionally, bound 256). -/
def recordFeeAndLatency (pf : Feed) (fee : Int) (elapsed : Int) : Feed :=
  let pf1 := if 0 < fee then { pf with fees := pushBounded 16 pf.fees fee } else pf
  { pf1 with secs := pushBounded 256 pf1.secs elapsed }

/-- Application of a submission result to the feed record (the code after the
handle_requestUpdate call): a positive returned id enters pending state and
resets the revert counter; a negative id records the reverted tx, bumps the
counter and auto-disables at the threshold; a three-element result records
fee and elapsed seconds and, on routed feeds, refreshes lastTimestamp from a
fresh lastValue read (modelled by `routedTs`). -/
def applySubmitResult (maxReverts : Nat) (pf : Feed) (elapsed : Int)
    (routedTs : Int) (r : UpdateResult) : Feed :=
  let rid := resultId r
  let pf1 :=
    if 0 < rid then
      { pf with latestRequestId := rid, pendingUpdate := true, reverts := 0 }
    else if rid < 0 then
      let pf2 := { pf with lastRevertedTx := resultTx r, reverts := pf.reverts + 1 }
      if maxReverts ≤ pf2.reverts then { pf2 with auto_disabled := true } else pf2
    else pf
  match r with
  | UpdateResult.full _ _ fee =>
      let pf3 := recordFeeAndLatency pf1 fee elapsed
      if pf3.isRouted then { pf3 with lastTimestamp := routedTs } else pf3
  | _ => pf1

/-- One tick's worth of submission handling: an auto-disabled feed is skipped
at the top of the tick (the `continue` guarded by `pf["auto_disabled"]`),
otherwise the outcome is applied. -/
def pollTickOutcome (maxReverts : Nat) (pf : Feed) (r : UpdateResult) : Feed :=
  if pf.auto_disabled then pf else applySubmitResult maxReverts pf 0 0 r

/-- Fold a sequence of per-tick submission outcomes over a feed. -/
def processOutcomes (maxReverts : Nat) (pf : Feed) (os : List UpdateResult) : Feed :=
  os.foldl (pollTickOutcome maxReverts) pf

/-- Specification-side counter: cumulative reverted outcomes since the last
reset (a reset being an accepted outcome with positive request id). -/
def sinceReset (c : Nat) : List UpdateResult → Nat
  | [] => c
  | UpdateResult.revertedTx _ :: os => sinceReset (c + 1) os
  | UpdateResult.full q _ _ :: os => sinceReset (if 0 < q then 0 else c) os
  | UpdateResult.zeroResult :: os => sinceReset c os

/-- Results actually produced by handle_requestUpdate carry a non-negative
request id in the three-element case (chain query ids are unsigned). -/
def validOutcome : UpdateResult → Bool
  | UpdateResult.full q _ _ => 0 ≤ q
  | _ => true

/-- Python's round(x, 2): rounding to two decimal places, ties to even. -/
def round2 (q : ℚ) : ℚ :=
  let s : ℚ := q * 100
  let f : ℤ := ⌊s⌋
  let frac : ℚ := s - (f : ℚ)
  let r : ℤ :=
    if frac < 1 / 2 then f
    else if 1 / 2 < frac then f + 1
    else if f % 2 = 0 then f else f + 1
  (r : ℚ) / 100

/-- Deviation percentage as computed in the deviation branch:
`round(100 * ((next_price - last_price) / last_price), 2)`. -/
def deviationPct (next_price last_price : Int) : ℚ :=
  round2 (100 * (((next_price : ℚ) - (last_price : ℚ)) / (last_price : ℚ)))

/-- Reason attached to a requested update. -/
inductive Reason
  | heartbeat
  | deviation
  | routedUpdate
deriving Repr, DecidableEq

/-- Decision taken by the idle (no pending update) branch of a tick. -/
inductive IdleDecision
  | rest
  | watchRouted (pending : Bool)
  | dryRunFailed
  | belowThreshold (dev : ℚ)
  | request (why : Reason)
  | awaitRouted
deriving Repr, DecidableEq

/-- Embedding of the idle branch of the loop: the cooldown gate, then the
heartbeat-disabled re-check, the heartbeat condition (with no finalization
discount on routed feeds), the deviation check (non-routed feeds with a
positive threshold and a positive last price; `dryRun` is the dry-run
subprocess result, `none` on failure or timeout), and finally the external
routed-update signal (`chainPending` models the fresh pendingUpdate read). -/
def idleDecide (budget : Int) (pf : Feed) (elapsed : Int) (dryRun : Option Int)
    (chainPending : Bool) : IdleDecision :=
  if pf.cooldown - budget ≤ elapsed then
    if pf.heartbeat = 0 then IdleDecision.watchRouted chainPending
    else if pf.heartbeat - (if pf.isRouted then 0 else budget) ≤ elapsed then
      IdleDecision.request Reason.heartbeat
    else if pf.isRouted = false ∧ 0 < pf.deviation ∧ 0 < pf.lastPrice then
      match dryRun with
      | none => IdleDecision.dryRunFailed
      | some n =>
          let dev := deviationPct n pf.lastPrice
          if |dev| < pf.deviation then IdleDecision.belowThreshold dev
          else IdleDecision.request Reason.deviation
    else if pf.isRouted = true ∧ chainPending = true then
      IdleDecision.request Reason.routedUpdate
    else IdleDecision.awaitRouted
  else IdleDecision.rest

/-- Effect of the idle branch on the feed record: the heartbeat-disabled
branch refreshes pendingUpdate from the chain, a fired trigger submits and
applies the submission result (modelled by `submit`), and every other
decision leaves the record untouched for the tick. -/
def idleStep (maxReverts : Nat) (budget : Int) (pf : Feed) (elapsed : Int)
    (dryRun : Option Int) (chainPending : Bool) (submit : UpdateResult)
    (routedTs : Int) : Feed :=
  match idleDecide budget pf elapsed dryRun chainPending with
  | IdleDecision.watchRouted b => { pf with pendingUpdate := b }
  | IdleDecision.request _ => applySubmitResult maxReverts pf elapsed routedTs submit
  | _ => pf

/-- The tuple returned by the contract's lastValue() call:
(price, timestamp, drTxHash, statusCode). -/
structure LastValue where
  price : Int
  timestamp : Int
  drTxHash : Nat
  status : Int
deriving Repr, DecidableEq

/-- Embedding of the pending-update branch of a tick: a 200 status with a
strictly newer timestamp clears the pending flag and updates price and
timestamp (the second component is the narrated latency, timestamp minus the
previous lastTimestamp); a 400 status clears the pending flag only; anything
else leaves the record untouched. -/
def pendingStep (pf : Feed) (lv : LastValue) : Feed × Option Int :=
  if lv.status = 200 ∧ pf.lastTimestamp < lv.timestamp then
    ({ pf with
        pendingUpdate := false
        lastPrice := lv.price
        lastTimestamp := lv.timestamp },
      some (lv.timestamp - pf.lastTimestamp))
  else if lv.status = 400 then
    ({ pf with pendingUpdate := false }, none)
  else (pf, none)

/-- Per-feed policy values re-read from the configuration file on a route
change. -/
structure ConfigReads where
  cooldown : Int
  deviation : ℚ
  heartbeat : Int
  isRouted : Bool
deriving Repr, DecidableEq

/-- Live state re-read from the new contract on a route change. -/
structure ChainReads where
  witnet : Nat
  lastPrice : Int
  lastTimestamp : Int
  latestQueryId : Int
  pendingUpdate : Bool
deriving Repr, DecidableEq

/-- Embedding of the route-change handling at the top of each per-feed tick:
when the router resolves an address different from the tracked one the
contract reference is swapped; for a non-zero new address the policy fields
are re-read from configuration, the live state is re-read from the new
contract - the fresh latestQueryId read being stored under the dict key
`latestQueryId` - and the histories, counters and flags are cleared.  A
change to the zero address swaps the contract reference only. -/
def rerouteStep (pf : Feed) (resolvedAddr : Nat) (cfg : ConfigReads)
    (chain : ChainReads) : Feed :=
  if pf.contractAddr ≠ resolvedAddr then
    let pf1 := { pf with contractAddr := resolvedAddr }
    if resolvedAddr ≠ 0 then
      { pf1 with
        cooldown := cfg.cooldown
        deviation := cfg.deviation
        heartbeat := cfg.heartbeat
        isRouted := cfg.isRouted
        witnet := if cfg.isRouted = false then some chain.witnet else pf1.witnet
        lastPrice := chain.lastPrice
        lastTimestamp := chain.lastTimestamp
        latestQueryId := some chain.latestQueryId
        pendingUpdate := chain.pendingUpdate
        fees := []
        secs := []
        auto_disabled := false
        lastRevertedTx := 0
        reverts := 0 }
    else pf1
  else pf

/-- One tick's route handling followed by the two skip gates (zero resolved
address, auto-disabled feed); the Bool is true when the tick goes on to poll
the feed's state. -/
def routeAndGate (pf : Feed) (resolvedAddr : Nat) (cfg : ConfigReads)
    (chain : ChainReads) : Feed × Bool :=
  let pf1 := rerouteStep pf resolvedAddr cfg chain
  if resolvedAddr = 0 then (pf1, false)
  else if pf1.auto_disabled then (pf1, false)
  else (pf1, true)

/-- Embedding of avg_fees: global average fee across all feeds that have fee
samples, and 0 when no feed has any sample. -/
def avg_fees (pfs : List Feed) : ℚ :=
  let acc := pfs.foldl
    (fun (a : Int × Nat) pf =>
      if 0 < pf.fees.length then (a.1 + pf.fees.sum, a.2 + pf.fees.length) else a)
    (0, 0)
  if 0 < acc.2 then (acc.1 : ℚ) / (acc.2 : ℚ) else 0

/-- Accumulation loop of time_to_die_secs: each feed's period is the mean of
its latency samples, defaulting to its heartbeat; a feed with a positive
period adds its fee rate (own average fee, defaulting to the global average
`total_avg_fee`) to the total speed. -/
def total_speed_calc (total_avg_fee : ℚ) (pfs : List Feed) : ℚ :=
  pfs.foldl
    (fun (t : ℚ) pf =>
      let pf_secs : ℚ :=
        if 0 < pf.secs.length then (pf.secs.sum : ℚ) / (pf.secs.length : ℚ)
        else (pf.heartbeat : ℚ)
      if 0 < pf_secs then
        t + (if 0 < pf.fees.length then (pf.fees.sum : ℚ) / (pf.fees.length : ℚ)
          else total_avg_fee) / pf_secs
      else t)
    0

/-- Embedding of time_to_die_secs: the balance divided by the total spend
speed when that total is positive, and 0 otherwise. -/
def time_to_die_secs (balance : ℚ) (pfs : List Feed) : ℚ :=
  let total_speed := total_speed_calc (avg_fees pfs) pfs
  if 0 < total_speed then balance / total_speed else 0

/-- Per-feed spend rate with the guard as implemented: a non-positive period
contributes nothing. -/
def feedRate (globalAvg : ℚ) (pf : Feed) : ℚ :=
  let denom : ℚ :=
    if 0 < pf.secs.length then (pf.secs.sum : ℚ) / (pf.secs.length : ℚ)
    else (pf.heartbeat : ℚ)
  if 0 < denom then
    (if 0 < pf.fees.length then (pf.fees.sum : ℚ) / (pf.fees.length : ℚ)
      else globalAvg) / denom
  else 0

/-- Runway estimator stated with the implemented per-feed guard (a feed
contributes 0 whenever its period is not positive). -/
def runwayAmended (balance : ℚ) (pfs : List Feed) : ℚ :=
  let rate := (pfs.map (feedRate (avg_fees pfs))).sum
  if 0 < rate then balance / rate else 0

/-- Runway estimator transcribed from the claim's words: each feed
contributes its fee divided by its period, contributing 0 only when that
denominator is exactly 0. -/
def runwayClaimFormula (balance : ℚ) (pfs : List Feed) : ℚ :=
  let rate := (pfs.map (fun pf =>
    let denom : ℚ :=
      if 0 < pf.secs.length then (pf.secs.sum : ℚ) / (pf.secs.length : ℚ)
      else (pf.heartbeat : ℚ)
    let fee : ℚ :=
      if 0 < pf.fees.length then (pf.fees.sum : ℚ) / (pf.fees.length : ℚ)
      else avg_fees pfs
    if denom = 0 then 0 else fee / denom)).sum
  if 0 < rate then balance / rate else 0

/-- Baseline concrete feed used by the concrete instances below. -/
def feed0 : Feed where
  contractAddr := 7
  cooldown := 900
  deviation := 4
  heartbeat := 3600
  isRouted := false
  lastPrice := 100
  lastTimestamp := 1000
  latestRequestId := 5
  pendingUpdate := false
  witnet := some 3
  reverts := 0
  auto_disabled := false
  lastRevertedTx := 0
  fees := []
  secs := []

/-- Concrete feed with one fee and one latency sample. -/
def feedA : Feed := { feed0 with
  fees := [2]
  secs := [1] }

/-- Concrete feed with a fee sample, no latency samples, and a negative
heartbeat, so that its period is negative. -/
def feedB : Feed := { feed0 with
  heartbeat := -4
  fees := [4]
  secs := [] }

/-- Concrete configuration reads for the re-route instances. -/
def cfg0 : ConfigReads where
  cooldown := 600
  deviation := 2
  heartbeat := 7200
  isRouted := false

/-- Concrete chain reads for the re-route instances; the fresh latest query
id on the new contract is 9. -/
def chain0 : ChainReads where
  witnet := 4
  lastPrice := 123
  lastTimestamp := 2000
  latestQueryId := 9
  pendingUpdate := false


theorem apply_zero_eq (m : Nat) (pf : Feed) (e t : Int) :
    applySubmitResult m pf e t UpdateResult.zeroResult = pf := rfl

theorem apply_reverted_eq (m : Nat) (pf : Feed) (e t : Int) (tx : Nat) :
    applySubmitResult m pf e t (UpdateResult.revertedTx tx) =
      if m ≤ pf.reverts + 1 then
        { pf with
          lastRevertedTx := tx
          reverts := pf.reverts + 1
          auto_disabled := true }
      else
        { pf with
          lastRevertedTx := tx
          reverts := pf.reverts + 1 } := rfl

theorem apply_full_eq (m : Nat) (pf : Feed) (e t : Int) (q : Int) (tx : Nat)
    (fee : Int) :
    applySubmitResult m pf e t (UpdateResult.full q tx fee) =
      (let pf1 :=
        if 0 < q then
          { pf with
            latestRequestId := q
            pendingUpdate := true
            reverts := 0 }
        else if q < 0 then
          (if m ≤ pf.reverts + 1 then
            { pf with
              lastRevertedTx := tx
              reverts := pf.reverts + 1
              auto_disabled := true }
          else
            { pf with
              lastRevertedTx := tx
              reverts := pf.reverts + 1 })
        else pf
      let pf3 := recordFeeAndLatency pf1 fee e
      if pf3.isRouted then { pf3 with lastTimestamp := t } else pf3) := rfl

theorem apply_full_reverts (m : Nat) (pf : Feed) (e t : Int) (q : Int)
    (tx : Nat) (fee : Int) :
    (applySubmitResult m pf e t (UpdateResult.full q tx fee)).reverts =
      if 0 < q then 0
      else if q < 0 then pf.reverts + 1
      else pf.reverts := by
  rcases lt_trichotomy q 0 with h | h | h
  · have h0 : ¬ (0:ℤ) < q := by omega
    by_cases hc : m ≤ pf.reverts + 1 <;>
      simp [apply_full_eq, h, h0, hc, recordFeeAndLatency, apply_ite Feed.reverts]
  · subst h
    simp [apply_full_eq, recordFeeAndLatency, apply_ite Feed.reverts]
  · have h0 : ¬ q < 0 := by omega
    simp [apply_full_eq, h, h0, recordFeeAndLatency, apply_ite Feed.reverts]

theorem apply_full_disabled (m : Nat) (pf : Feed) (e t : Int) (q : Int)
    (tx : Nat) (fee : Int) :
    (applySubmitResult m pf e t (UpdateResult.full q tx fee)).auto_disabled =
      if q < 0 ∧ m ≤ pf.reverts + 1 then true else pf.auto_disabled := by
  rcases lt_trichotomy q 0 with h | h | h
  · have h0 : ¬ (0:ℤ) < q := by omega
    by_cases hc : m ≤ pf.reverts + 1 <;>
      simp [apply_full_eq, h, h0, hc, recordFeeAndLatency,
        apply_ite Feed.auto_disabled]
  · subst h
    simp [apply_full_eq, recordFeeAndLatency, apply_ite Feed.auto_disabled]
  · have h0 : ¬ q < 0 := by omega
    simp [apply_full_eq, h, h0, recordFeeAndLatency, apply_ite Feed.auto_disabled]

theorem apply_full_pending (m : Nat) (pf : Feed) (e t : Int) (q : Int)
    (tx : Nat) (fee : Int) :
    (applySubmitResult m pf e t (UpdateResult.full q tx fee)).pendingUpdate =
      if 0 < q then true else pf.pendingUpdate := by
  rcases lt_trichotomy q 0 with h | h | h
  · have h0 : ¬ (0:ℤ) < q := by omega
    by_cases hc : m ≤ pf.reverts + 1 <;>
      simp [apply_full_eq, h, h0, hc, recordFeeAndLatency,
        apply_ite Feed.pendingUpdate]
  · subst h
    simp [apply_full_eq, recordFeeAndLatency, apply_ite Feed.pendingUpdate]
  · have h0 : ¬ q < 0 := by omega
    simp [apply_full_eq, h, h0, recordFeeAndLatency, apply_ite Feed.pendingUpdate]

theorem apply_full_latestRequestId (m : Nat) (pf : Feed) (e t : Int) (q : Int)
    (tx : Nat) (fee : Int) :
    (applySubmitResult m pf e t (UpdateResult.full q tx fee)).latestRequestId =
      if 0 < q then q else pf.latestRequestId := by
  rcases lt_trichotomy q 0 with h | h | h
  · have h0 : ¬ (0:ℤ) < q := by omega
    by_cases hc : m ≤ pf.reverts + 1 <;>
      simp [apply_full_eq, h, h0, hc, recordFeeAndLatency,
        apply_ite Feed.latestRequestId]
  · subst h
    simp [apply_full_eq, recordFeeAndLatency, apply_ite Feed.latestRequestId]
  · have h0 : ¬ q < 0 := by omega
    simp [apply_full_eq, h, h0, recordFeeAndLatency, apply_ite Feed.latestRequestId]

theorem apply_reverted_reverts (m : Nat) (pf : Feed) (e t : Int) (tx : Nat) :
    (applySubmitResult m pf e t (UpdateResult.revertedTx tx)).reverts =
      pf.reverts + 1 := by
  by_cases hc : m ≤ pf.reverts + 1 <;> simp [apply_reverted_eq, hc]

theorem apply_reverted_disabled (m : Nat) (pf : Feed) (e t : Int) (tx : Nat) :
    (applySubmitResult m pf e t (UpdateResult.revertedTx tx)).auto_disabled =
      if m ≤ pf.reverts + 1 then true else pf.auto_disabled := by
  by_cases hc : m ≤ pf.reverts + 1 <;> simp [apply_reverted_eq, hc]

theorem apply_reverted_pending (m : Nat) (pf : Feed) (e t : Int) (tx : Nat) :
    (applySubmitResult m pf e t (UpdateResult.revertedTx tx)).pendingUpdate =
      pf.pendingUpdate := by
  by_cases hc : m ≤ pf.reverts + 1 <;> simp [apply_reverted_eq, hc]

theorem processOutcomes_nil (m : Nat) (pf : Feed) :
    processOutcomes m pf [] = pf := rfl

theorem processOutcomes_cons (m : Nat) (pf : Feed) (o : UpdateResult)
    (os : List UpdateResult) :
    processOutcomes m pf (o :: os) =
      processOutcomes m (pollTickOutcome m pf o) os := rfl

theorem processOutcomes_disabled (m : Nat) (pf : Feed) (os : List UpdateResult)
    (h : pf.auto_disabled = true) : processOutcomes m pf os = pf := by
  induction os with
  | nil => rfl
  | cons o os ih =>
      rw [processOutcomes_cons, pollTickOutcome, if_pos h]
      exact ih

theorem pollTick_not_disabled (m : Nat) (pf : Feed) (r : UpdateResult)
    (h : pf.auto_disabled = false) :
    pollTickOutcome m pf r = applySubmitResult m pf 0 0 r := by
  rw [pollTickOutcome, if_neg (by simp [h])]

theorem disabled_iff_aux (m : Nat) :
    ∀ (os : List UpdateResult) (pf : Feed),
      (∀ o ∈ os, validOutcome o = true) →
      pf.auto_disabled = false → pf.reverts < m →
      ((processOutcomes m pf os).auto_disabled = true ↔
        ∃ n, m ≤ sinceReset pf.reverts (os.take n)) := by
  intro os
  induction os with
  | nil =>
      intro pf _ hd hr
      rw [processOutcomes_nil, hd]
      constructor
      · intro h; cases h
      · rintro ⟨n, hn⟩
        simp only [List.take_nil, sinceReset] at hn
        omega
  | cons o os ih =>
      intro pf hv hd hr
      have hvos : ∀ x ∈ os, validOutcome x = true :=
        fun x hx => hv x (List.mem_cons_of_mem o hx)
      rw [processOutcomes_cons, pollTick_not_disabled m pf o hd]
      cases o with
      | zeroResult =>
          rw [apply_zero_eq, ih pf hvos hd hr]
          constructor
          · rintro ⟨n, hn⟩
            exact ⟨n + 1, by simpa [sinceReset] using hn⟩
          · rintro ⟨n, hn⟩
            cases n with
            | zero => simp [sinceReset] at hn; omega
            | succ k => exact ⟨k, by simpa [sinceReset] using hn⟩
      | revertedTx tx =>
          by_cases hcross : m ≤ pf.reverts + 1
          · have hsd2 : (applySubmitResult m pf 0 0
                (UpdateResult.revertedTx tx)).auto_disabled = true := by
              rw [apply_reverted_disabled, if_pos hcross]
            rw [processOutcomes_disabled m _ os hsd2, hsd2]
            constructor
            · intro _
              refine ⟨1, ?_⟩
              simpa [sinceReset] using hcross
            · intro _; rfl
          · have hsd2 : (applySubmitResult m pf 0 0
                (UpdateResult.revertedTx tx)).auto_disabled = false := by
              rw [apply_reverted_disabled, if_neg hcross, hd]
            have hsr : (applySubmitResult m pf 0 0
                (UpdateResult.revertedTx tx)).reverts = pf.reverts + 1 :=
              apply_reverted_reverts m pf 0 0 tx
            rw [ih _ hvos hsd2 (by omega), hsr]
            constructor
            · rintro ⟨n, hn⟩
              exact ⟨n + 1, by simpa [sinceReset] using hn⟩
            · rintro ⟨n, hn⟩
              cases n with
              | zero => simp [sinceReset] at hn; omega
              | succ k => exact ⟨k, by simpa [sinceReset] using hn⟩
      | full q tx fee =>
          have hq : (0:ℤ) ≤ q := by
            have := hv (UpdateResult.full q tx fee) (List.mem_cons_self _ _)
            simpa [validOutcome] using this
          have hsd2 : (applySubmitResult m pf 0 0
              (UpdateResult.full q tx fee)).auto_disabled = false := by
            rw [apply_full_disabled, hd, if_neg]
            rintro ⟨h1, h2⟩
            omega
          by_cases hqpos : (0:ℤ) < q
          · have hsr : (applySubmitResult m pf 0 0
                (UpdateResult.full q tx fee)).reverts = 0 := by
              rw [apply_full_reverts, if_pos hqpos]
            rw [ih _ hvos hsd2 (by omega), hsr]
            constructor
            · rintro ⟨n, hn⟩
              exact ⟨n + 1, by simpa [sinceReset, hqpos] using hn⟩
            · rintro ⟨n, hn⟩
              cases n with
              | zero => simp [sinceReset] at hn; omega
              | succ k => exact ⟨k, by simpa [sinceReset, hqpos] using hn⟩
          · have hsr : (applySubmitResult m pf 0 0
                (UpdateResult.full q tx fee)).reverts = pf.reverts := by
              rw [apply_full_reverts, if_neg hqpos, if_neg (by omega)]
            rw [ih _ hvos hsd2 (by omega), hsr]
            constructor
            · rintro ⟨n, hn⟩
              refine ⟨n + 1, ?_⟩
              simpa [sinceReset, hqpos] using hn
            · rintro ⟨n, hn⟩
              cases n with
              | zero => simp [sinceReset] at hn; omega
              | succ k =>
                  refine ⟨k, ?_⟩
                  simpa [sinceReset, hqpos] using hn

theorem pollTick_inv (m : Nat) (pf : Feed) (r : UpdateResult)
    (h : pf.auto_disabled = true → m ≤ pf.reverts) :
    (pollTickOutcome m pf r).auto_disabled = true →
      m ≤ (pollTickOutcome m pf r).reverts := by
  by_cases hd : pf.auto_disabled = true
  · rw [pollTickOutcome, if_pos hd]
    exact fun _ => h hd
  · have hd2 : pf.auto_disabled = false := by
      cases hfd : pf.auto_disabled
      · rfl
      · exact absurd hfd hd
    rw [pollTick_not_disabled m pf r hd2]
    cases r with
    | zeroResult =>
        rw [apply_zero_eq]
        intro hc
        exact absurd hc hd
    | revertedTx tx =>
        rw [apply_reverted_disabled, apply_reverted_reverts, hd2]
        by_cases hc : m ≤ pf.reverts + 1
        · rw [if_pos hc]
          intro _
          omega
        · rw [if_neg hc]
          intro hfalse
          cases hfalse
    | full q tx fee =>
        rw [apply_full_disabled, apply_full_reverts, hd2]
        by_cases hc : q < 0 ∧ m ≤ pf.reverts + 1
        · rw [if_pos hc]
          rw [if_neg (by omega), if_pos hc.1]
          intro _
          omega
        · rw [if_neg hc]
          intro hfalse
          cases hfalse

theorem processOutcomes_inv (m : Nat) (os : List UpdateResult) :
    ∀ pf : Feed, (pf.auto_disabled = true → m ≤ pf.reverts) →
      ((processOutcomes m pf os).auto_disabled = true →
        m ≤ (processOutcomes m pf os).reverts) := by
  induction os with
  | nil => intro pf h; simpa [processOutcomes_nil] using h
  | cons o os ih =>
      intro pf h
      rw [processOutcomes_cons]
      exact ih (pollTickOutcome m pf o) (pollTick_inv m pf o h)

/-- C2: starting from a reset state, a feed becomes auto-disabled exactly
when the cumulative count of reverted outcomes since the last reset (an
accepted outcome with a positive request id resets the counter to 0, which
the third conjunct states directly) reaches the maxReverts threshold at some
point of the outcome sequence; auto-disabled implies at least maxReverts
recorded reverts after any number of ticks; and an auto-disabled feed is
skipped by every later tick, so outcome processing never clears the flag. -/
theorem C2_autoDisabled (m : Nat) (pf : Feed) (os : List UpdateResult)
    (hm : 1 ≤ m) (hv : ∀ o ∈ os, validOutcome o = true)
    (hd : pf.auto_disabled = false) (hr : pf.reverts = 0) :
    ((processOutcomes m pf os).auto_disabled = true ↔
        ∃ n, m ≤ sinceReset 0 (os.take n))
      ∧ ((processOutcomes m pf os).auto_disabled = true →
        m ≤ (processOutcomes m pf os).reverts)
      ∧ (∀ (q : Feed) (id e t : Int) (tx : Nat) (fee : Int), 0 < id →
        (applySubmitResult m q e t (UpdateResult.full id tx fee)).reverts = 0)
      ∧ (∀ (q : Feed) (os2 : List UpdateResult), q.auto_disabled = true →
        processOutcomes m q os2 = q) := by
  refine ⟨?_, ?_, ?_, ?_⟩
  · have h := disabled_iff_aux m os pf hv hd (by omega)
    rwa [hr] at h
  · exact processOutcomes_inv m os pf (by simp [hd])
  · intro q id e t tx fee hid
    rw [apply_full_reverts, if_pos hid]
  · intro q os2 hq
    exact processOutcomes_disabled m q os2 hq

/-- Witness for C2: maxReverts 3 and three consecutive reverted outcomes
starting from the fresh baseline feed. -/
theorem C2_autoDisabled_witness :
    (1 ≤ 3
        ∧ (∀ o ∈ [UpdateResult.revertedTx 11, UpdateResult.revertedTx 12,
            UpdateResult.revertedTx 13], validOutcome o = true)
        ∧ feed0.auto_disabled = false ∧ feed0.reverts = 0)
      ∧ (((processOutcomes 3 feed0 [UpdateResult.revertedTx 11,
            UpdateResult.revertedTx 12, UpdateResult.revertedTx 13]).auto_disabled
              = true ↔
          ∃ n, 3 ≤ sinceReset 0 ([UpdateResult.revertedTx 11,
            UpdateResult.revertedTx 12, UpdateResult.revertedTx 13].take n))
        ∧ ((processOutcomes 3 feed0 [UpdateResult.revertedTx 11,
            UpdateResult.revertedTx 12, UpdateResult.revertedTx 13]).auto_disabled
              = true →
          3 ≤ (processOutcomes 3 feed0 [UpdateResult.revertedTx 11,
            UpdateResult.revertedTx 12, UpdateResult.revertedTx 13]).reverts)
        ∧ (∀ (q : Feed) (id e t : Int) (tx : Nat) (fee : Int), 0 < id →
          (applySubmitResult 3 q e t (UpdateResult.full id tx fee)).reverts = 0)
        ∧ (∀ (q : Feed) (os2 : List UpdateResult), q.auto_disabled = true →
          processOutcomes 3 q os2 = q)) :=
  ⟨⟨by norm_num,
      by intro o ho; fin_cases ho <;> rfl,
      rfl, rfl⟩,
    C2_autoDisabled 3 feed0
      [UpdateResult.revertedTx 11, UpdateResult.revertedTx 12,
        UpdateResult.revertedTx 13]
      (by norm_num)
      (by intro o ho; fin_cases ho <;> rfl)
      rfl rfl⟩

theorem pushBounded_length (b : Nat) (xs : List Int) (x : Int)
    (h : xs.length ≤ b) : (pushBounded b xs x).length ≤ b := by
  unfold pushBounded
  simp only []
  split
  · simp only [List.length_tail, List.length_append, List.length_cons,
      List.length_nil]
    omega
  · next hno =>
      simp only [List.length_append, List.length_cons, List.length_nil] at hno ⊢
      omega

theorem pushBounded_full (b : Nat) (xs : List Int) (x : Int)
    (h : xs.length = b) (hb : 0 < b) : pushBounded b xs x = xs.tail ++ [x] := by
  unfold pushBounded
  simp only []
  rw [if_pos (by simp [h])]
  cases xs with
  | nil => rw [List.length_nil] at h; omega
  | cons a l => simp

theorem record_fees_bound (pf : Feed) (fee e : Int) (h1 : pf.fees.length ≤ 16) :
    (recordFeeAndLatency pf fee e).fees.length ≤ 16 := by
  by_cases h : (0:ℤ) < fee
  · simp only [recordFeeAndLatency, if_pos h]
    exact pushBounded_length 16 pf.fees fee h1
  · simp only [recordFeeAndLatency, if_neg h]
    exact h1

theorem record_secs_bound (pf : Feed) (fee e : Int) (h2 : pf.secs.length ≤ 256) :
    (recordFeeAndLatency pf fee e).secs.length ≤ 256 := by
  by_cases h : (0:ℤ) < fee
  · simp only [recordFeeAndLatency, if_pos h]
    exact pushBounded_length 256 pf.secs e h2
  · simp only [recordFeeAndLatency, if_neg h]
    exact pushBounded_length 256 pf.secs e h2

theorem record_fold_bounds (recs : List (Int × Int)) :
    ∀ pf : Feed, pf.fees.length ≤ 16 → pf.secs.length ≤ 256 →
      (recs.foldl (fun s r => recordFeeAndLatency s r.1 r.2) pf).fees.length ≤ 16
      ∧ (recs.foldl (fun s r => recordFeeAndLatency s r.1 r.2) pf).secs.length
          ≤ 256 := by
  induction recs with
  | nil => intro pf h1 h2; exact ⟨h1, h2⟩
  | cons r rs ih =>
      intro pf h1 h2
      rw [List.foldl_cons]
      exact ih _ (record_fees_bound pf r.1 r.2 h1) (record_secs_bound pf r.1 r.2 h2)

/-- C8: starting from histories within their bounds, any number of fee and
latency recordings keeps the fee history at 16 entries or fewer and the
latency history at 256 or fewer, and when a history is exactly at its bound
a new recording appends the new entry and removes exactly the oldest one. -/
theorem C8_history_bounds (pf : Feed) (recs : List (Int × Int))
    (h1 : pf.fees.length ≤ 16) (h2 : pf.secs.length ≤ 256) :
    ((recs.foldl (fun s r => recordFeeAndLatency s r.1 r.2) pf).fees.length ≤ 16
      ∧ (recs.foldl (fun s r => recordFeeAndLatency s r.1 r.2) pf).secs.length
          ≤ 256)
    ∧ (∀ (q : Feed) (fee e : Int), q.fees.length = 16 → 0 < fee →
        (recordFeeAndLatency q fee e).fees = q.fees.tail ++ [fee])
    ∧ (∀ (q : Feed) (fee e : Int), q.secs.length = 256 →
        (recordFeeAndLatency q fee e).secs = q.secs.tail ++ [e]) := by
  refine ⟨record_fold_bounds recs pf h1 h2, ?_, ?_⟩
  · intro q fee e hlen hfee
    simp only [recordFeeAndLatency, if_pos hfee]
    exact pushBounded_full 16 q.fees fee hlen (by norm_num)
  · intro q fee e hlen
    by_cases h : (0:ℤ) < fee
    · simp only [recordFeeAndLatency, if_pos h]
      exact pushBounded_full 256 q.secs e hlen (by norm_num)
    · simp only [recordFeeAndLatency, if_neg h]
      exact pushBounded_full 256 q.secs e hlen (by norm_num)

/-- Witness for C8 at the baseline feed and a single recording. -/
theorem C8_history_bounds_witness :
    (feed0.fees.length ≤ 16 ∧ feed0.secs.length ≤ 256)
      ∧ ((([((5:Int), (60:Int))].foldl
            (fun s r => recordFeeAndLatency s r.1 r.2) feed0).fees.length ≤ 16
          ∧ ([((5:Int), (60:Int))].foldl
              (fun s r => recordFeeAndLatency s r.1 r.2) feed0).secs.length ≤ 256)
        ∧ (∀ (q : Feed) (fee e : Int), q.fees.length = 16 → 0 < fee →
            (recordFeeAndLatency q fee e).fees = q.fees.tail ++ [fee])
        ∧ (∀ (q : Feed) (fee e : Int), q.secs.length = 256 →
            (recordFeeAndLatency q fee e).secs = q.secs.tail ++ [e])) :=
  ⟨⟨by decide, by decide⟩,
    C8_history_bounds feed0 [((5:Int), (60:Int))] (by decide) (by decide)⟩

theorem total_speed_eq_sum (G : ℚ) (pfs : List Feed) :
    total_speed_calc G pfs = (pfs.map (feedRate G)).sum := by
  suffices h : ∀ (l : List Feed) (c : ℚ),
      l.foldl
        (fun (t : ℚ) pf =>
          let pf_secs : ℚ :=
            if 0 < pf.secs.length then (pf.secs.sum : ℚ) / (pf.secs.length : ℚ)
            else (pf.heartbeat : ℚ)
          if 0 < pf_secs then
            t + (if 0 < pf.fees.length then (pf.fees.sum : ℚ) / (pf.fees.length : ℚ)
              else G) / pf_secs
          else t)
        c = c + (l.map (feedRate G)).sum by
    simpa [total_speed_calc] using h pfs 0
  intro l
  induction l with
  | nil => intro c; simp
  | cons pf l ih =>
      intro c
      rw [List.foldl_cons, ih, List.map_cons, List.sum_cons]
      simp only []
      by_cases h : (0:ℚ) <
          (if 0 < pf.secs.length then (pf.secs.sum : ℚ) / (pf.secs.length : ℚ)
            else (pf.heartbeat : ℚ))
      · rw [if_pos h]
        unfold feedRate
        simp only []
        rw [if_pos h]
        ring
      · rw [if_neg h]
        unfold feedRate
        simp only []
        rw [if_neg h]
        ring

theorem time_to_die_eq_runway (b : ℚ) (pfs : List Feed) :
    time_to_die_secs b pfs = runwayAmended b pfs := by
  unfold time_to_die_secs runwayAmended
  simp only []
  rw [total_speed_eq_sum]

theorem avg_fees_no_samples (pfs : List Feed) (h : ∀ pf ∈ pfs, pf.fees = []) :
    avg_fees pfs = 0 := by
  have haux : ∀ (l : List Feed) (a : Int × Nat), (∀ pf ∈ l, pf.fees = []) →
      l.foldl
        (fun (a : Int × Nat) pf =>
          if 0 < pf.fees.length then (a.1 + pf.fees.sum, a.2 + pf.fees.length)
          else a)
        a = a := by
    intro l
    induction l with
    | nil => intro a _; rfl
    | cons pf l ih =>
        intro a hl
        rw [List.foldl_cons]
        rw [if_neg (by rw [hl pf (List.mem_cons_self _ _)]; simp)]
        exact ih a (fun x hx => hl x (List.mem_cons_of_mem _ hx))
  unfold avg_fees
  simp only []
  rw [haux pfs ((0:Int), (0:Nat)) h]
  simp

theorem runway_no_samples (b : ℚ) (pfs : List Feed)
    (h : ∀ pf ∈ pfs, pf.fees = []) : time_to_die_secs b pfs = 0 := by
  unfold time_to_die_secs
  simp only []
  rw [avg_fees_no_samples pfs h, total_speed_eq_sum]
  have hz : (pfs.map (feedRate 0)).sum = 0 := by
    apply List.sum_eq_zero
    intro x hx
    rcases List.mem_map.mp hx with ⟨pf, hpf, rfl⟩
    unfold feedRate
    simp [h pf hpf]
  rw [hz]
  simp

/-- C9 (amended): the runway estimator equals balance divided by the total
spend rate when that rate is positive and 0 otherwise, each feed
contributing its own average fee (or the global average when it has no
samples) divided by the mean of its latency history (or its heartbeat when
the history is empty), contributing 0 whenever that denominator is not
positive; and whenever no feed has any fee sample the result is exactly 0. -/
theorem C9_runway (b : ℚ) (pfs : List Feed) :
    time_to_die_secs b pfs = runwayAmended b pfs
    ∧ ((∀ pf ∈ pfs, pf.fees = []) → time_to_die_secs b pfs = 0) :=
  ⟨time_to_die_eq_runway b pfs, fun h => runway_no_samples b pfs h⟩

/-- Witness for C9 on a singleton feed list with no fee samples. -/
theorem C9_runway_witness :
    (∀ pf ∈ [feed0], pf.fees = [])
      ∧ time_to_die_secs 10 [feed0] = runwayAmended 10 [feed0]
      ∧ time_to_die_secs 10 [feed0] = 0 :=
  ⟨by intro pf hpf; fin_cases hpf; rfl,
    (C9_runway 10 [feed0]).1,
    (C9_runway 10 [feed0]).2 (by intro pf hpf; fin_cases hpf; rfl)⟩

/-- Counterexample to C9 as stated: with one feed of fee 2 and period 1 and
a second feed of fee 4, empty latency history, and heartbeat -4, the code
skips the second feed (non-positive period) and returns 10 / 2 = 5, while
the claim's formula, which only drops a feed when the denominator is exactly
0, has the second feed contribute 4 / (-4) = -1 and returns 10 / 1 = 10. -/
theorem C9_counterexample :
    time_to_die_secs 10 [feedA, feedB] = 5
    ∧ runwayClaimFormula 10 [feedA, feedB] = 10 := by
  constructor <;>
    norm_num [time_to_die_secs, total_speed_calc, runwayClaimFormula, avg_fees,
      feedA, feedB, feed0]

/-- C3: for an idle feed with a positive heartbeat that has passed the
cooldown gate, the heartbeat trigger fires exactly when the elapsed seconds
reach the heartbeat minus the finalization budget for non-routed feeds, and
the heartbeat with no discount for routed feeds. -/
theorem C3_heartbeat_trigger (budget elapsed : Int) (pf : Feed)
    (dryRun : Option Int) (chainPending : Bool)
    (hIdle : pf.pendingUpdate = false) (hhb : 0 < pf.heartbeat)
    (hcool : pf.cooldown - budget ≤ elapsed) :
    (idleDecide budget pf elapsed dryRun chainPending =
        IdleDecision.request Reason.heartbeat) ↔
      pf.heartbeat - (if pf.isRouted then 0 else budget) ≤ elapsed := by
  unfold idleDecide
  rw [if_pos hcool, if_neg (by omega : ¬ pf.heartbeat = 0)]
  by_cases h : pf.heartbeat - (if pf.isRouted then 0 else budget) ≤ elapsed
  · rw [if_pos h]
    exact iff_of_true rfl h
  · rw [if_neg h]
    refine iff_of_false ?_ h
    intro hX
    split at hX
    · cases dryRun with
      | none => simp at hX
      | some n =>
          simp only [] at hX
          split at hX
          · simp at hX
          · simp at hX
    · split at hX
      · simp at hX
      · simp at hX

/-- Witness for C3 at the spec's example: heartbeat 3600, budget 360,
non-routed feed, elapsed 3240. -/
theorem C3_heartbeat_trigger_witness :
    (feed0.pendingUpdate = false ∧ 0 < feed0.heartbeat
        ∧ feed0.cooldown - 360 ≤ 3240)
      ∧ ((idleDecide 360 feed0 3240 none false =
          IdleDecision.request Reason.heartbeat) ↔
        feed0.heartbeat - (if feed0.isRouted then 0 else 360) ≤ 3240) :=
  ⟨⟨rfl, by decide, by decide⟩,
    C3_heartbeat_trigger 360 3240 feed0 none false rfl (by decide) (by decide)⟩

/-- C4: for an idle non-routed feed with a positive deviation threshold and
a positive last price that has passed the cooldown gate but meets neither
the heartbeat-disabled case nor the heartbeat condition, a successful
dry-run triggers the deviation request exactly when the rounded absolute
deviation reaches the threshold, and a failed dry-run leads to no trigger
and leaves the feed unchanged for the tick. -/
theorem C4_deviation_trigger (maxR : Nat) (budget elapsed : Int) (pf : Feed)
    (chainPending : Bool) (submit : UpdateResult) (routedTs : Int)
    (hIdle : pf.pendingUpdate = false)
    (hr : pf.isRouted = false) (hdev : 0 < pf.deviation) (hlp : 0 < pf.lastPrice)
    (hcool : pf.cooldown - budget ≤ elapsed)
    (hhb0 : pf.heartbeat ≠ 0)
    (hhb : ¬ (pf.heartbeat - budget ≤ elapsed)) :
    (∀ n : Int,
        (idleDecide budget pf elapsed (some n) chainPending =
            IdleDecision.request Reason.deviation) ↔
          pf.deviation ≤ |deviationPct n pf.lastPrice|)
    ∧ idleDecide budget pf elapsed none chainPending = IdleDecision.dryRunFailed
    ∧ idleStep maxR budget pf elapsed none chainPending submit routedTs = pf := by
  have hguard : pf.isRouted = false ∧ 0 < pf.deviation ∧ 0 < pf.lastPrice :=
    ⟨hr, hdev, hlp⟩
  have hhb2 : ¬ (pf.heartbeat - (if pf.isRouted then 0 else budget) ≤ elapsed) := by
    rw [hr]
    simpa using hhb
  have hnone : idleDecide budget pf elapsed none chainPending =
      IdleDecision.dryRunFailed := by
    unfold idleDecide
    rw [if_pos hcool, if_neg hhb0, if_neg hhb2, if_pos hguard]
  refine ⟨?_, hnone, ?_⟩
  · intro n
    unfold idleDecide
    rw [if_pos hcool, if_neg hhb0, if_neg hhb2, if_pos hguard]
    simp only []
    by_cases habs : |deviationPct n pf.lastPrice| < pf.deviation
    · rw [if_pos habs]
      exact iff_of_false (by simp) (not_le.mpr habs)
    · rw [if_neg habs]
      exact iff_of_true rfl (le_of_not_lt habs)
  · unfold idleStep
    rw [hnone]

/-- Witness for C4 at the spec's example: last price 100, predicted 105,
threshold 4, with a failed dry-run leaving the feed unchanged. -/
theorem C4_deviation_trigger_witness :
    (feed0.pendingUpdate = false ∧ feed0.isRouted = false
        ∧ 0 < feed0.deviation ∧ 0 < feed0.lastPrice
        ∧ feed0.cooldown - 360 ≤ 1000 ∧ feed0.heartbeat ≠ 0
        ∧ ¬ (feed0.heartbeat - 360 ≤ 1000))
      ∧ ((idleDecide 360 feed0 1000 (some 105) false =
            IdleDecision.request Reason.deviation) ↔
          feed0.deviation ≤ |deviationPct 105 feed0.lastPrice|)
      ∧ idleDecide 360 feed0 1000 none false = IdleDecision.dryRunFailed
      ∧ idleStep 3 360 feed0 1000 none false UpdateResult.zeroResult 0 = feed0 := by
  have H := C4_deviation_trigger 3 360 1000 feed0 false UpdateResult.zeroResult 0
    rfl rfl (by norm_num [feed0]) (by decide) (by decide) (by decide) (by decide)
  exact ⟨⟨rfl, rfl, by norm_num [feed0], by decide, by decide, by decide,
    by decide⟩, H.1 105, H.2.1, H.2.2⟩

/-- C5: for a feed awaiting resolution, a 200 status with a strictly newer
reported timestamp moves the feed to idle updating price and timestamp and
reporting the latency as reported timestamp minus the previous tracked one;
a 400 status moves the feed to idle changing nothing else and reporting no
latency; anything else leaves the feed record exactly as it was. -/
theorem C5_pending_resolution (pf : Feed) (lv : LastValue)
    (hp : pf.pendingUpdate = true) :
    (lv.status = 200 → pf.lastTimestamp < lv.timestamp →
        pendingStep pf lv =
          ({ pf with
              pendingUpdate := false
              lastPrice := lv.price
              lastTimestamp := lv.timestamp },
            some (lv.timestamp - pf.lastTimestamp)))
    ∧ (lv.status = 400 →
        pendingStep pf lv = ({ pf with pendingUpdate := false }, none))
    ∧ (¬(lv.status = 200 ∧ pf.lastTimestamp < lv.timestamp) → lv.status ≠ 400 →
        pendingStep pf lv = (pf, none)) := by
  refine ⟨?_, ?_, ?_⟩
  · intro h1 h2
    unfold pendingStep
    rw [if_pos ⟨h1, h2⟩]
  · intro h4
    unfold pendingStep
    rw [if_neg (by rw [h4]; rintro ⟨hc, _⟩; norm_num at hc), if_pos h4]
  · intro hn h4
    unfold pendingStep
    rw [if_neg hn, if_neg h4]

/-- Witness for C5: a pending feed observing a 200 status at a newer
timestamp. -/
theorem C5_pending_resolution_witness :
    ({ feed0 with pendingUpdate := true } : Feed).pendingUpdate = true
      ∧ (LastValue.mk 105 1050 77 200).status = 200
      ∧ ({ feed0 with pendingUpdate := true } : Feed).lastTimestamp
          < (LastValue.mk 105 1050 77 200).timestamp
      ∧ pendingStep { feed0 with pendingUpdate := true }
          (LastValue.mk 105 1050 77 200) =
        ({ { feed0 with pendingUpdate := true } with
            pendingUpdate := false
            lastPrice := (LastValue.mk 105 1050 77 200).price
            lastTimestamp := (LastValue.mk 105 1050 77 200).timestamp },
          some ((LastValue.mk 105 1050 77 200).timestamp -
            ({ feed0 with pendingUpdate := true } : Feed).lastTimestamp)) :=
  ⟨rfl, rfl, by decide,
    (C5_pending_resolution { feed0 with pendingUpdate := true }
        (LastValue.mk 105 1050 77 200) rfl).1 rfl (by decide)⟩

/-- C1 (amended): after a successful submission with a positive balance, the
feed enters the pending state exactly when the returned request id is
positive: an event query id of 0, or no event with a previous
latestRequestId of 0 or less, leaves the pending flag false; but a success
receipt with no event while the previous latestRequestId is positive
re-enters the pending state under that previous id, and an event with a
positive query id always enters the pending state and stores that id. -/
theorem C1_sync_accept (maxR bal : Nat) (prev : Int) (tx : Nat) (fee : Int)
    (pf : Feed) (e t : Int) (hbal : bal ≠ 0) (hp : pf.pendingUpdate = false) :
    (∀ l : List Int,
        (applySubmitResult maxR pf e t
          (handle_requestUpdate bal prev (ChainTx.receipt true (0 :: l)) tx
            fee)).pendingUpdate = false)
    ∧ (prev ≤ 0 →
        (applySubmitResult maxR pf e t
          (handle_requestUpdate bal prev (ChainTx.receipt true []) tx
            fee)).pendingUpdate = false)
    ∧ (0 < prev →
        (applySubmitResult maxR pf e t
          (handle_requestUpdate bal prev (ChainTx.receipt true []) tx
            fee)).pendingUpdate = true)
    ∧ (∀ (q : Int) (l : List Int), 0 < q →
        (applySubmitResult maxR pf e t
          (handle_requestUpdate bal prev (ChainTx.receipt true (q :: l)) tx
            fee)).pendingUpdate = true
        ∧ (applySubmitResult maxR pf e t
            (handle_requestUpdate bal prev (ChainTx.receipt true (q :: l)) tx
              fee)).latestRequestId = q) := by
  have hnil : handle_requestUpdate bal prev (ChainTx.receipt true []) tx fee =
      UpdateResult.full prev tx fee := by
    unfold handle_requestUpdate
    rw [if_neg hbal]
    rfl
  have hcons : ∀ (q : Int) (l : List Int),
      handle_requestUpdate bal prev (ChainTx.receipt true (q :: l)) tx fee =
        UpdateResult.full q tx fee := by
    intro q l
    unfold handle_requestUpdate
    rw [if_neg hbal]
    rfl
  refine ⟨?_, ?_, ?_, ?_⟩
  · intro l
    rw [hcons 0 l, apply_full_pending, if_neg (by omega)]
    exact hp
  · intro hprev
    rw [hnil, apply_full_pending, if_neg (by omega)]
    exact hp
  · intro hprev
    rw [hnil, apply_full_pending, if_pos hprev]
  · intro q l hq
    exact ⟨by rw [hcons q l, apply_full_pending, if_pos hq],
      by rw [hcons q l, apply_full_latestRequestId, if_pos hq]⟩

/-- Counterexample to C1 as stated: a success receipt with no event is
classified SynchronousUpdate by the claim, yet with the feed's previous
latestRequestId at 5 the code returns [5, tx, fee] and the loop sets
pendingUpdate to true, so the feed does enter AwaitingResolution. -/
theorem C1_counterexample :
    feed0.pendingUpdate = false
    ∧ feed0.latestRequestId = 5
    ∧ (applySubmitResult 3 feed0 100 0
        (handle_requestUpdate 1 5 (ChainTx.receipt true []) 99 7)).pendingUpdate
        = true :=
  ⟨rfl, rfl, rfl⟩

/-- Witness for C1 (amended) at balance 1, previous request id 5, and the
baseline idle feed. -/
theorem C1_sync_accept_witness :
    ((1:Nat) ≠ 0 ∧ feed0.pendingUpdate = false)
      ∧ ((∀ l : List Int,
            (applySubmitResult 3 feed0 100 0
              (handle_requestUpdate 1 5 (ChainTx.receipt true (0 :: l)) 99
                7)).pendingUpdate = false)
        ∧ ((5:Int) ≤ 0 →
            (applySubmitResult 3 feed0 100 0
              (handle_requestUpdate 1 5 (ChainTx.receipt true []) 99
                7)).pendingUpdate = false)
        ∧ ((0:Int) < 5 →
            (applySubmitResult 3 feed0 100 0
              (handle_requestUpdate 1 5 (ChainTx.receipt true []) 99
                7)).pendingUpdate = true)
        ∧ (∀ (q : Int) (l : List Int), 0 < q →
            (applySubmitResult 3 feed0 100 0
              (handle_requestUpdate 1 5 (ChainTx.receipt true (q :: l)) 99
                7)).pendingUpdate = true
            ∧ (applySubmitResult 3 feed0 100 0
                (handle_requestUpdate 1 5 (ChainTx.receipt true (q :: l)) 99
                  7)).latestRequestId = q)) :=
  ⟨⟨by norm_num, rfl⟩,
    C1_sync_accept 3 1 5 99 7 feed0 100 0 (by norm_num) rfl⟩

/-- C6 at its failing input: a route change from address 17 to address 23
does clear the histories, counters and flags, but the fresh on-chain read
latestQueryId = 9 is stored under the never-read dict key latestQueryId
while latestRequestId keeps its stale value 5; and a route change to the
zero address performs no reset at all, leaving auto_disabled set. -/
theorem C6_reroute_latestRequestId :
    ({ feed0 with
        contractAddr := 17
        auto_disabled := true
        reverts := 3
        fees := [9]
        secs := [8] } : Feed).latestRequestId = 5
    ∧ chain0.latestQueryId = 9
    ∧ (rerouteStep
        { feed0 with
          contractAddr := 17
          auto_disabled := true
          reverts := 3
          fees := [9]
          secs := [8] } 23 cfg0 chain0).latestRequestId = 5
    ∧ (rerouteStep
        { feed0 with
          contractAddr := 17
          auto_disabled := true
          reverts := 3
          fees := [9]
          secs := [8] } 23 cfg0 chain0).latestQueryId = some 9
    ∧ (rerouteStep
        { feed0 with
          contractAddr := 17
          auto_disabled := true
          reverts := 3
          fees := [9]
          secs := [8] } 23 cfg0 chain0).auto_disabled = false
    ∧ (rerouteStep
        { feed0 with
          contractAddr := 17
          auto_disabled := true
          reverts := 3
          fees := [9]
          secs := [8] } 23 cfg0 chain0).reverts = 0
    ∧ (rerouteStep
        { feed0 with
          contractAddr := 17
          auto_disabled := true
          reverts := 3
          fees := [9]
          secs := [8] } 23 cfg0 chain0).fees = []
    ∧ (rerouteStep
        { feed0 with
          contractAddr := 17
          auto_disabled := true
          reverts := 3
          fees := [9]
          secs := [8] } 23 cfg0 chain0).secs = []
    ∧ (rerouteStep
        { feed0 with
          contractAddr := 17
          auto_disabled := true
          reverts := 3
          fees := [9]
          secs := [8] } 23 cfg0 chain0).lastPrice = 123
    ∧ (rerouteStep
        { feed0 with
          contractAddr := 17
          auto_disabled := true
          reverts := 3
          fees := [9]
          secs := [8] } 0 cfg0 chain0).auto_disabled = true :=
  ⟨rfl, rfl, rfl, rfl, rfl, rfl, rfl, rfl, rfl, rfl⟩

/-- C7 at its failing input: with the funding balance at exactly 0, the
zero-balance exception raised inside handle_requestUpdate is caught by that
same function's generic handler, so the attempt returns the one-element [0]
result - indistinguishable from a timeout - and applying it to the feed
changes nothing, so the poll loop continues instead of the process halting. -/
theorem C7_funding_depleted :
    handle_requestUpdate 0 5 (ChainTx.receipt true [7]) 99 3
        = UpdateResult.zeroResult
    ∧ handle_requestUpdate 0 5 ChainTx.timeout 99 3 = UpdateResult.zeroResult
    ∧ pollTickOutcome 3 feed0 UpdateResult.zeroResult = feed0 :=
  ⟨rfl, rfl, rfl⟩

/-- C10: when the router resolves the zero address for a feed, the tick
swaps the tracked contract reference to the zero address, changes no other
field of the feed, and skips the feed (the Bool component is false); since
this holds for every feed state, it holds on every subsequent tick while
the resolved address stays zero. -/
theorem C10_zero_route_frame (pf : Feed) (cfg : ConfigReads)
    (chain : ChainReads) :
    routeAndGate pf 0 cfg chain = ({ pf with contractAddr := 0 }, false) := by
  unfold routeAndGate
  simp only [if_true]
  unfold rerouteStep
  by_cases h : pf.contractAddr = 0
  · rw [if_neg (by simp [h])]
    cases pf
    simp only [] at h
    simp [h]
  · rw [if_pos (by simpa using h)]
    simp only []
    rw [if_neg (by simp)]

end PriceFeedsPoller
